import Mathlib

/-!
# Verification of the smart-sampling core of sentinel-code

Shallow embedding of the file discovery / filtering / priority-ranking
subsystem (`src/github_utils.py`) and of the report assembly pipeline
(`src/analyzer.py`).

Path and text values are modelled as `List Char` (Python strings), file
sizes as `Nat` (`os.stat().st_size`).  Python's substring operator `in`
is modelled by `containsL`, `str.lower()` by `lowerL`.  A discovered
file is a `PyFile`: the directory part of its on-disk path (which, for
files discovered by `Path(repo_path).rglob`, starts with the repository
checkout path), the file name split as stem plus extension (as in
`pathlib`: `name = stem + suffix`), and its size in bytes.
-/

open scoped List

namespace Sentinel

/-- Python `str.lower()` restricted to the characters of the value
(CPython lowercases per character; `Char.toLower` matches it on the
ASCII data handled by this program). -/
def lowerL (s : List Char) : List Char := s.map Char.toLower

/-- Python's substring test `pat in hay` on strings. -/
def containsL (hay pat : List Char) : Bool :=
  match hay with
  | [] => pat.isEmpty
  | _ :: t => pat.isPrefixOf hay || containsL t pat

/-- Number of occurrences of a character, Python `str.count(c)`. -/
def countCh (c : Char) (s : List Char) : Nat := s.count c

/-- Helper turning a literal vocabulary into char lists. -/
def strs (l : List String) : List (List Char) := l.map (fun s => s.toList)

/-- `GitHubUtils.EXTENSIONS` — file extensions to analyze. -/
def EXTENSIONS : List (List Char) :=
  strs [".py", ".js", ".ts", ".jsx", ".tsx",
        ".rs", ".sol", ".go", ".java",
        ".cpp", ".c", ".h", ".hpp",
        ".rb", ".php", ".swift", ".kt"]

/-- `GitHubUtils.IGNORE_DIRS` — directories to always skip. -/
def IGNORE_DIRS : List (List Char) :=
  strs ["node_modules", "venv", ".venv", "__pycache__", ".git",
        "dist", "build", "target", ".next", "vendor", ".cache",
        "coverage", ".nyc_output", "eggs", ".eggs", "*.egg-info"]

/-- `GitHubUtils.SKIP_PATTERNS` — test/mock/etc markers. -/
def SKIP_PATTERNS : List (List Char) :=
  strs ["test_", "_test.", ".test.", "spec_", "_spec.", ".spec.",
        "mock_", "_mock.", ".mock.", "fixture", "__mocks__",
        "migrations", ".min.", ".bundle.", ".compiled."]

/-- `GitHubUtils.CRITICAL_KEYWORDS` — security-sensitive vocabulary. -/
def CRITICAL_KEYWORDS : List (List Char) :=
  strs ["auth", "login", "logout", "password", "credential", "secret",
        "token", "session", "jwt", "oauth", "permission", "role",
        "payment", "checkout", "billing", "stripe", "paypal",
        "admin", "user", "account", "profile", "register", "signup",
        "api_key", "private_key", "encrypt", "decrypt", "hash"]

/-- `GitHubUtils.IMPORTANT_KEYWORDS` — entry points and core files. -/
def IMPORTANT_KEYWORDS : List (List Char) :=
  strs ["main", "app", "index", "server", "init", "setup", "config",
        "settings", "database", "db", "model", "schema", "migrate",
        "api", "route", "router", "controller", "handler", "view",
        "middleware", "service", "client", "util", "helper", "core"]

/-- `GitHubUtils.PRIORITY_DIRS` — directories whose files get a bonus. -/
def PRIORITY_DIRS : List (List Char) :=
  strs ["src/", "lib/", "core/", "api/", "routes/", "controllers/",
        "services/", "models/", "handlers/", "middleware/", "auth/",
        "app/", "server/", "backend/", "pkg/", "internal/"]

/-- A file discovered by `Path(repo_path).rglob`: the directory part of
its path (`str(filepath.parent)`, no trailing separator), the name
split `pathlib`-style into stem and suffix, and the stat size. -/
structure PyFile where
  parent : List Char
  stem : List Char
  ext : List Char
  size : Nat
deriving DecidableEq, Repr

/-- `filepath.name` (= stem + suffix in pathlib). -/
def PyFile.name (f : PyFile) : List Char := f.stem ++ f.ext

/-- `str(filepath)` (= parent joined with name). -/
def PyFile.fullPath (f : PyFile) : List Char :=
  f.parent ++ ['/'] ++ f.name

/-- `GitHubUtils._should_skip`: lower-cased substring tests of the
directory denylist against the full path, then of the skip patterns
against the bare name and the full path. -/
def should_skip (f : PyFile) : Bool :=
  let nm := lowerL f.name
  let ps := lowerL f.fullPath
  IGNORE_DIRS.any (fun d => containsL ps d)
    || SKIP_PATTERNS.any (fun p => containsL nm p || containsL ps p)

/-- `GitHubUtils._get_priority`: additive score from the security
vocabulary (stem or path), the entry-point vocabulary (stem only), the
priority-directory vocabulary (path), two size thresholds and the
root-proximity test on the parent's separator count.  The size is
discovery-time metadata (the `stat` call in the source; its
exception branch adds nothing and is not reachable for a discovered
file with known metadata). -/
def get_priority (f : PyFile) : Nat :=
  let stem := lowerL f.stem
  let ps := lowerL f.fullPath
  (if CRITICAL_KEYWORDS.any (fun kw => containsL stem kw || containsL ps kw)
     then 100 else 0)
  + (if IMPORTANT_KEYWORDS.any (fun kw => containsL stem kw) then 50 else 0)
  + (if PRIORITY_DIRS.any (fun d => containsL ps d) then 25 else 0)
  + (if f.size > 5000 then 10 else 0)
  + (if f.size > 10000 then 10 else 0)
  + (if countCh '/' f.parent ≤ 2 then 15 else 0)

/-- The ordering `sorted(..., key=_get_priority, reverse=True)` sorts
by: descending priority score. -/
def prioRel (a b : PyFile) : Prop := get_priority b ≤ get_priority a

instance : DecidableRel prioRel := fun _ _ => Nat.decLe _ _

instance : IsTotal PyFile prioRel :=
  ⟨fun a b => Nat.le_total (get_priority b) (get_priority a)⟩

instance : IsTrans PyFile prioRel :=
  ⟨fun _ _ _ hab hbc => Nat.le_trans hbc hab⟩

/-- `GitHubUtils.get_file_list`: the `discovered` argument is the
concatenation of the per-extension `rglob` walks, in discovery order;
the function filters by `_should_skip`, stably sorts descending by
`_get_priority` and truncates to `max_files` (the `print` logging of
the source is side-effect only and not modelled).  CPython's `sorted`
with `reverse=True` is a stable descending sort; it is modelled by the
stable `insertionSort` (a stable sort's output is uniquely determined
by the key order and the input order, so the choice of stable
algorithm is immaterial). -/
def get_file_list (discovered : List PyFile) (max_files : Nat) : List PyFile :=
  let filtered := discovered.filter (fun f => !should_skip f)
  let sorted_files := filtered.insertionSort prioRel
  sorted_files.take max_files

/-! ## Content loader (`GitHubUtils.read_file`) -/

/-- Python `f.readlines()`: split text into lines, each line keeping
its terminating newline; a final unterminated chunk is its own line;
empty text has no lines. -/
def splitLines : List Char → List (List Char)
  | [] => []
  | c :: rest =>
    if c = '\n' then [c] :: splitLines rest
    else
      match splitLines rest with
      | [] => [[c]]
      | l :: ls => (c :: l) :: ls

/-- The outcome of `open(...).readlines()` under
`errors='ignore'`: either the decoded text of the file (invalid bytes
already dropped by the permissive codec), or the message of the raised
exception (`FileNotFoundError`, `PermissionError`, ...). -/
def FileOutcome := Except (List Char) (List Char)

/-- `GitHubUtils.read_file`: first `max_lines` lines joined back
together on success, `"Error reading file: " + message` on any
exception. -/
def read_file (outcome : FileOutcome) (max_lines : Nat) : List Char :=
  match outcome with
  | .ok text => ((splitLines text).take max_lines).flatten
  | .error e => "Error reading file: ".toList ++ e

/-! ## Report assembly (`src/analyzer.py`) -/

/-- An opaque JSON value (an issue object produced by the external
service); `analyze` passes these through untouched, so their internal
structure is irrelevant and they are modelled as raw text. -/
abbrev JsonVal := List Char

/-- The dictionary parsed from the external service's reply (or built
locally on failure), read with `dict.get(key, default)`: absent keys
are `none`. -/
structure AiDict where
  score : Option Int
  critical : Option (List JsonVal)
  warnings : Option (List JsonVal)
  improvements : Option (List JsonVal)
  summary : Option (List Char)
deriving DecidableEq, Repr

deriving instance DecidableEq for Except

/-- What came back from the `requests.post` call in
`CodeAnalyzer._ai_analyze`: a response with an HTTP status whose body
either parses to a dictionary (after the markdown-fence stripping of
the source) or raises `json.JSONDecodeError`, or an exception raised
anywhere in the call (network failure, timeout, missing JSON keys...). -/
inductive AiCallOutcome where
  | response (status : Nat) (body : Except (List Char) AiDict)
  | raised (msg : List Char)
deriving DecidableEq, Repr

/-- `CodeAnalyzer._ai_analyze` after the prompt is sent: a non-200
status, a body that fails to parse, and a raised exception each
degrade to a `{"score": 50, "summary": ...}` dictionary. -/
def ai_analyze (outcome : AiCallOutcome) : AiDict :=
  match outcome with
  | .response status body =>
    if status ≠ 200 then
      { score := some 50, critical := none, warnings := none,
        improvements := none, summary := some "Analysis failed".toList }
    else
      match body with
      | .ok d => d
      | .error _ =>
        { score := some 50, critical := none, warnings := none,
          improvements := none,
          summary := some "Failed to parse analysis".toList }
  | .raised e =>
    { score := some 50, critical := none, warnings := none,
      improvements := none,
      summary := some ("Analysis error: ".toList ++ e) }

/-- `CodeAnalyzer._ext_to_language`: fixed extension-to-label table,
unrecognized extensions label as themselves. -/
def ext_to_language (ext : List Char) : List Char :=
  let mapping : List (List Char × List Char) :=
    [(".py".toList, "Python".toList),
     (".js".toList, "JavaScript".toList),
     (".ts".toList, "TypeScript".toList),
     (".jsx".toList, "React JSX".toList),
     (".tsx".toList, "React TSX".toList),
     (".rs".toList, "Rust".toList),
     (".sol".toList, "Solidity".toList),
     (".go".toList, "Go".toList),
     (".java".toList, "Java".toList),
     (".cpp".toList, "C++".toList),
     (".c".toList, "C".toList),
     (".h".toList, "C Header".toList),
     (".rb".toList, "Ruby".toList),
     (".php".toList, "PHP".toList)]
  match mapping.find? (fun p => p.1 == ext) with
  | some p => p.2
  | none => ext

/-- Python `dict` lookup with default, `d.get(k, v)`. -/
def dictGet (m : List (List Char × Nat)) (k : List Char) (dflt : Nat) : Nat :=
  match m.find? (fun p => p.1 == k) with
  | some p => p.2
  | none => dflt

/-- Python `dict` assignment `d[k] = v`: overwrite in place, keeping
the key's original insertion position, or append a new key. -/
def dictSetN (m : List (List Char × Nat)) (k : List Char) (v : Nat) :
    List (List Char × Nat) :=
  match m with
  | [] => [(k, v)]
  | p :: t => if p.1 == k then (k, v) :: t else p :: dictSetN t k v

/-- Same for the string-valued `file_contents` dictionary. -/
def dictSetS (m : List (List Char × List Char)) (k : List Char)
    (v : List Char) : List (List Char × List Char) :=
  match m with
  | [] => [(k, v)]
  | p :: t => if p.1 == k then (k, v) :: t else p :: dictSetS t k v

/-- Python `round((lines / total) * 100)` on the exact rational value:
round half to even (CPython float rounding; the double-precision
detour of the source can stray from the exact value only on
half-way-point ties far beyond these magnitudes). -/
def pctOf (lines total : Nat) : Nat :=
  let num := lines * 100
  let q := num / total
  let r := num % total
  if 2 * r < total then q
  else if total < 2 * r then q + 1
  else if q % 2 = 0 then q else q + 1

/-- The final report dictionary built by `CodeAnalyzer.analyze` on the
non-empty path: it has no `error` key. -/
structure Report where
  repo : List Char
  files_analyzed : Nat
  total_lines : Nat
  languages : List (List Char × Nat)
  score : Int
  critical : List JsonVal
  warnings : List JsonVal
  improvements : List JsonVal
  summary : List Char
deriving DecidableEq, Repr

/-- The two shapes `CodeAnalyzer.analyze` can return: the
`{"error": ..., "score": 0, "repo": ...}` dictionary of the empty
file list branch, or the full report dictionary. -/
inductive AnalyzeResult where
  | errorDict (error : List Char) (score : Int) (repo : List Char)
  | report (r : Report)
deriving DecidableEq, Repr

/-- The per-file loop of `CodeAnalyzer.analyze`: accumulate the
`file_contents` dictionary (keyed by the path relative to the
checkout; a constant-prefix strip of `PyFile.fullPath`, modelled by
the full path since only key identity matters), the running
`total_lines`, and the per-extension `language_stats`. -/
def analyzeLoop (fs : PyFile → FileOutcome) (files : List PyFile) :
    List (List Char × List Char) × Nat × List (List Char × Nat) :=
  files.foldl
    (fun acc f =>
      let content := read_file (fs f) 500
      let lines := countCh '\n' content
      (dictSetS acc.1 f.fullPath content,
       acc.2.1 + lines,
       dictSetN acc.2.2 f.ext (dictGet acc.2.2 f.ext 0 + lines)))
    ([], 0, [])

/-- `CodeAnalyzer.analyze`.  `discovered` abstracts the filesystem walk
(see `get_file_list`), `fs` the per-file read outcomes, `outcome` the
external service call.  The sampler is invoked with its default budget
of 50 and the loop reads only `files[:30]`. -/
def analyze (discovered : List PyFile) (fs : PyFile → FileOutcome)
    (repo_url : List Char) (outcome : AiCallOutcome) : AnalyzeResult :=
  let files := get_file_list discovered 50
  if files.isEmpty then
    .errorDict "No code files found".toList 0 repo_url
  else
    let acc := analyzeLoop fs (files.take 30)
    let file_contents := acc.1
    let total_lines := acc.2.1
    let language_stats := acc.2.2
    let languages0 := language_stats.foldl
      (fun (m : List (List Char × Nat)) p =>
        let pct := if 0 < total_lines then pctOf p.2 total_lines else 0
        dictSetN m (ext_to_language p.1) pct) []
    let languages := languages0.insertionSort (fun a b => b.2 ≤ a.2)
    let analysis := ai_analyze outcome
    .report
      { repo := repo_url,
        files_analyzed := file_contents.length,
        total_lines := total_lines,
        languages := languages,
        score := analysis.score.getD 50,
        critical := analysis.critical.getD [],
        warnings := analysis.warnings.getD [],
        improvements := analysis.improvements.getD [],
        summary := analysis.summary.getD [] }

/-- The per-file fragment appended to `files_text` in
`CodeAnalyzer._ai_analyze`: header plus at most the first 3000
characters of the loaded content. -/
def promptChunk (path content : List Char) : List Char :=
  "\n\n=== FILE: ".toList ++ path ++ " ===\n".toList ++ content.take 3000

/-- The `files_text` accumulation loop of `CodeAnalyzer._ai_analyze`
(string `+=` over the `file_contents` items, i.e. their
concatenation). -/
def filesText (file_contents : List (List Char × List Char)) : List Char :=
  file_contents.flatMap (fun p => promptChunk p.1 p.2)

/-! ## Concrete inputs used by the claim theorems and witnesses

The repository checkout directory is modelled as `../temp/owner_repo`,
the shape produced by `GitHubUtils.clone_repo` (`TEMP_DIR` joined with
`owner_repo`); `rglob` results then have this prefix on their parent. -/

/-- Shorthand for a discovered file. -/
def mkFile (par st ex : String) (sz : Nat) : PyFile :=
  ⟨par.toList, st.toList, ex.toList, sz⟩

def c2file : PyFile := mkFile "../temp/owner_repo" "a" ".py" 0

def c3file : PyFile := mkFile "../temp/owner_repo" "test_login" ".py" 0

def c4login : PyFile := mkFile "../temp/owner_repo/auth" "login" ".py" 2048

def c4helper : PyFile := mkFile "../temp/owner_repo/utils" "helper" ".py" 12288

def c4test : PyFile := mkFile "../temp/owner_repo" "test_login" ".py" 100

def c4vendor : PyFile := mkFile "../temp/owner_repo/vendor" "lib" ".js" 100

def c5distance : PyFile := mkFile "../temp/owner_repo/distance" "foo" ".py" 0

def c5vendors : PyFile := mkFile "../temp/owner_repo" "vendors_report" ".py" 0

/-- One of ten equally-scored files for the C6 scenario. -/
def c6mk (s : String) : PyFile := mkFile "../temp/owner_repo" s ".py" 0

/-- Ten files with identical priority scores, discovered in path
order. -/
def c6files : List PyFile :=
  [c6mk "a", c6mk "b", c6mk "c", c6mk "d", c6mk "e",
   c6mk "f", c6mk "g", c6mk "h", c6mk "i", c6mk "j"]

def c6x : PyFile := mkFile "../temp/owner_repo" "x" ".py" 0

def c6y : PyFile := mkFile "../temp/owner_repo" "y" ".py" 0

def c8file : PyFile := mkFile "../temp/owner_repo" "page" ".py" 0

def c9file : PyFile := mkFile "../temp/owner_repo" "a" ".py" 0

def c10file : PyFile := mkFile "../temp/owner_repo" "b" ".py" 0

/-! ## Helper lemmas -/

/-- `containsL` is the substring relation. -/
theorem containsL_iff {hay pat : List Char} :
    containsL hay pat = true ↔ pat <:+: hay := by
  induction hay with
  | nil =>
    simp [containsL, List.isEmpty_iff]
  | cons c t ih =>
    rw [containsL, List.infix_cons_iff]
    simp [ih]

/-! ## C2: budget respected -/

/-- C2.  For every repository tree and budget, the selected list has
length `min max_files afterFilterCount` (hence at most `max_files`),
and a repository with at most `max_files` filtered files gets every
filtered file back, still sorted descending by priority. -/
theorem claim_C2 (discovered : List PyFile) (max_files : Nat) :
    (get_file_list discovered max_files).length =
      min max_files ((discovered.filter (fun f => !should_skip f)).length)
  ∧ (get_file_list discovered max_files).length ≤ max_files
  ∧ ((discovered.filter (fun f => !should_skip f)).length ≤ max_files →
      get_file_list discovered max_files =
        (discovered.filter (fun f => !should_skip f)).insertionSort prioRel
    ∧ (get_file_list discovered max_files).Perm
        (discovered.filter (fun f => !should_skip f))
    ∧ (get_file_list discovered max_files).Sorted prioRel) := by
  refine ⟨?_, ?_, ?_⟩
  · simp [get_file_list]
  · simp only [get_file_list]
    exact (List.length_take ..).trans_le (Nat.min_le_left ..)
  · intro h
    have hlen :
        ((discovered.filter (fun f => !should_skip f)).insertionSort
            prioRel).length ≤ max_files := by
      rw [List.length_insertionSort]
      exact h
    have heq : get_file_list discovered max_files =
        (discovered.filter (fun f => !should_skip f)).insertionSort prioRel :=
      List.take_of_length_le hlen
    refine ⟨heq, ?_, ?_⟩
    · rw [heq]
      exact List.perm_insertionSort _ _
    · rw [heq]
      exact List.sorted_insertionSort _ _

/-- Witness for C2 at a concrete one-file repository. -/
theorem claim_C2_witness :
    get_file_list [c2file] 5 =
      ([c2file].filter (fun f => !should_skip f)).insertionSort prioRel
  ∧ (get_file_list [c2file] 5).Perm ([c2file].filter (fun f => !should_skip f))
  ∧ (get_file_list [c2file] 5).Sorted prioRel :=
  (claim_C2 [c2file] 5).2.2 (by decide)

/-! ## C3: skip is absolute -/

/-- C3.  A file rejected by the Skip Policy never appears in the
selected list, for any repository tree and any budget. -/
theorem claim_C3 (f : PyFile) (discovered : List PyFile) (max_files : Nat)
    (h : should_skip f = true) : f ∉ get_file_list discovered max_files := by
  intro hmem
  simp only [get_file_list] at hmem
  have h1 := List.mem_of_mem_take hmem
  rw [List.mem_insertionSort, List.mem_filter] at h1
  simp [h] at h1

/-- Witness for C3 at a concrete skipped file. -/
theorem claim_C3_witness :
    should_skip c3file = true ∧ c3file ∉ get_file_list [c3file] 50 :=
  ⟨by decide, claim_C3 _ _ _ (by decide)⟩

/-! ## C4: the four-file scenario -/

/-- C4.  In the repository holding exactly `auth/login.py` (2 KB),
`utils/helper.py` (12 KB), `test_login.py` and `vendor/lib.js`,
checked out at the clone location the program uses: the test file and
the vendored file are excluded, `auth/login.py` scores at least 100
(it scores 125), `utils/helper.py` scores exactly 70, and
`auth/login.py` ranks first in the selected list. -/
theorem claim_C4 :
    should_skip c4test = true
  ∧ should_skip c4vendor = true
  ∧ 100 ≤ get_priority c4login
  ∧ get_priority c4helper = 70
  ∧ get_file_list [c4login, c4helper, c4test, c4vendor] 50 =
      [c4login, c4helper] := by
  refine ⟨by decide, by decide, by decide, by decide, by decide⟩

/-! ## C5: the directory denylist matches substrings, not segments -/

/-- C5 counterexample.  `repo/distance/foo.py` has no whole path
segment in the directory denylist, yet the denylist test fires (the
entry `dist` occurs inside the segment `distance`) and the file is
skipped; likewise `vendors_report.py` is skipped through the substring
`vendor`.  This refutes the claim that such files are not rejected by
the directory rule. -/
theorem claim_C5_counterexample :
    IGNORE_DIRS.any (fun d => containsL (lowerL c5distance.fullPath) d) = true
  ∧ should_skip c5distance = true
  ∧ IGNORE_DIRS.any (fun d => containsL (lowerL c5vendors.fullPath) d) = true
  ∧ should_skip c5vendors = true := by
  refine ⟨by decide, by decide, by decide, by decide⟩

/-- C5 amended.  The directory-denylist rule is a plain substring test
on the lower-cased full path: any occurrence of a denylist entry,
whether or not it is a whole path segment, rejects the file.  In
particular a directory named `distance` (containing `dist`) and a file
`vendors_report.py` (containing `vendor`) are rejected. -/
theorem claim_C5_amended :
    (∀ (f : PyFile) (d : List Char), d ∈ IGNORE_DIRS →
        containsL (lowerL f.fullPath) d = true → should_skip f = true)
  ∧ should_skip c5distance = true
  ∧ should_skip c5vendors = true := by
  refine ⟨?_, by decide, by decide⟩
  intro f d hd hc
  have : IGNORE_DIRS.any (fun d => containsL (lowerL f.fullPath) d) = true :=
    List.any_eq_true.mpr ⟨d, hd, hc⟩
  simp only [should_skip, this, Bool.true_or]

/-- Witness for the amended C5, discharging its hypotheses on a
concrete file inside a `node_modules` tree. -/
theorem claim_C5_amended_witness :
    should_skip (mkFile "../temp/o_r/node_modules/x" "y" ".js" 0) = true :=
  claim_C5_amended.1 (mkFile "../temp/o_r/node_modules/x" "y" ".js" 0)
    "node_modules".toList (by decide) (by decide)

/-! ## C1: an empty repository -/

/-- C1 counterexample.  At the empty repository, `analyze` does not
return a normal report: it returns the dictionary
`{"error": "No code files found", "score": 0, "repo": url}`, an error
result carrying an `error` key (the claim asserts a valid
empty-content report instead). -/
theorem claim_C1_counterexample :
    analyze [] (fun _ => Except.ok []) "https://github.com/o/r".toList
        (.raised []) =
      .errorDict "No code files found".toList 0
        "https://github.com/o/r".toList := by
  decide

/-- C1 amended.  When discovery finds no files the sampler does return
an empty selected list for every budget, but `analyze` then returns
the `{"error": "No code files found", "score": 0, "repo": url}`
dictionary — an error result, not an empty-content report. -/
theorem claim_C1_amended (fs : PyFile → FileOutcome) (url : List Char)
    (o : AiCallOutcome) (max_files : Nat) :
    get_file_list [] max_files = []
  ∧ analyze [] fs url o = .errorDict "No code files found".toList 0 url := by
  constructor
  · simp [get_file_list]
  · rfl

/-! ## C6: stable tie-break -/

/-- C6.  Two filtered files with identical priority scores keep their
relative discovery order through the sampler's sort (the selected list
is a prefix of that sort, so the order also holds there); in the
concrete scenario of ten equally-scored files discovered in path order
with a budget of one, the first-discovered file is selected. -/
theorem claim_C6 :
    (∀ (discovered : List PyFile) (f g : PyFile),
        get_priority f = get_priority g →
        [f, g] <+ discovered.filter (fun x => !should_skip x) →
        [f, g] <+
          (discovered.filter (fun x => !should_skip x)).insertionSort prioRel)
  ∧ get_file_list c6files 1 = [c6mk "a"] := by
  constructor
  · intro discovered f g hpri hsub
    exact List.pair_sublist_insertionSort (Nat.le_of_eq hpri.symm) hsub
  · decide

/-- Witness for C6: two equally-scored concrete files keep their
discovery order through the sort. -/
theorem claim_C6_witness :
    [c6x, c6y] <+ ([c6x, c6y].filter (fun x => !should_skip x)).insertionSort
      prioRel :=
  claim_C6.1 [c6x, c6y] c6x c6y (by decide) (by decide)

/-! ## C7: the content loader -/

/-- Joining the lines produced by `readlines` restores the text. -/
theorem flatten_splitLines (s : List Char) : (splitLines s).flatten = s := by
  induction s with
  | nil => rfl
  | cons c rest ih =>
    rw [splitLines]
    by_cases hc : c = '\n'
    · subst hc
      simp [ih]
    · rw [if_neg hc]
      cases hsr : splitLines rest with
      | nil =>
        rw [hsr] at ih
        simp at ih
        simp [ih]
      | cons l ls =>
        rw [hsr] at ih
        simpa using ih

/-- Every line produced by `readlines` holds at most one newline. -/
theorem count_splitLines {s l : List Char} (h : l ∈ splitLines s) :
    countCh '\n' l ≤ 1 := by
  induction s generalizing l with
  | nil => simp [splitLines] at h
  | cons c rest ih =>
    rw [splitLines] at h
    by_cases hc : c = '\n'
    · subst hc
      rw [if_pos rfl] at h
      rcases List.mem_cons.mp h with rfl | h2
      · simp [countCh]
      · exact ih h2
    · rw [if_neg hc] at h
      cases hsr : splitLines rest with
      | nil =>
        rw [hsr] at h
        rcases List.mem_singleton.mp h with rfl
        simp [countCh, List.count_cons, hc]
      | cons l0 ls =>
        rw [hsr] at h
        rcases List.mem_cons.mp h with rfl | h2
        · have h0 : countCh '\n' l0 ≤ 1 := ih (hsr ▸ List.mem_cons_self l0 ls)
          simpa [countCh, List.count_cons, hc] using h0
        · exact ih (hsr ▸ List.mem_cons_of_mem l0 h2)

/-- Joining at most `n` lines of at most one newline each gives at most
`n` newlines. -/
theorem countCh_flatten_take (L : List (List Char)) (n : Nat)
    (h : ∀ l ∈ L, countCh '\n' l ≤ 1) :
    countCh '\n' (L.take n).flatten ≤ n := by
  induction L generalizing n with
  | nil => simp [countCh]
  | cons l t ih =>
    cases n with
    | zero => simp [countCh]
    | succ m =>
      rw [List.take_succ_cons, List.flatten_cons]
      have h1 : countCh '\n' l ≤ 1 := h l (List.mem_cons_self l t)
      have h2 : countCh '\n' (t.take m).flatten ≤ m :=
        ih m (fun x hx => h x (List.mem_cons_of_mem l hx))
      simp only [countCh, List.count_append] at h1 h2 ⊢
      omega

/-- A prefix of the line list joins to a prefix of the text. -/
theorem flatten_take_pre (L : List (List Char)) (n : Nat) :
    (L.take n).flatten <+: L.flatten := by
  obtain ⟨t, ht⟩ : L.take n <+: L := List.take_prefix n L
  exact ⟨t.flatten, by rw [← List.flatten_append, ht]⟩

/-- C7.  The content loader is total (the shallow embedding returns on
every outcome): on a successfully read text it returns a prefix of the
text holding at most `max_lines` newlines (hence at most `max_lines`
lines of the file), and on any read failure it returns the single
diagnostic line `"Error reading file: " + message` — one line, holding
no newline when the exception message holds none. -/
theorem claim_C7 (text e : List Char) (max_lines : Nat) :
    read_file (.ok text) max_lines <+: text
  ∧ countCh '\n' (read_file (.ok text) max_lines) ≤ max_lines
  ∧ read_file (.error e) max_lines = "Error reading file: ".toList ++ e
  ∧ (countCh '\n' e = 0 → countCh '\n' (read_file (.error e) max_lines) = 0) := by
  refine ⟨?_, ?_, rfl, ?_⟩
  · have := flatten_take_pre (splitLines text) max_lines
    rwa [flatten_splitLines] at this
  · exact countCh_flatten_take _ _ (fun l hl => count_splitLines hl)
  · intro h0
    show countCh '\n' ("Error reading file: ".toList ++ e) = 0
    simp only [countCh, List.count_append] at h0 ⊢
    rw [h0]
    decide

/-- Witness for C7 on a concrete three-line text and a concrete
newline-free error message. -/
theorem claim_C7_witness :
    read_file (.ok "ab\ncd\nef".toList) 2 <+: "ab\ncd\nef".toList
  ∧ countCh '\n' (read_file (.ok "ab\ncd\nef".toList) 2) ≤ 2
  ∧ countCh '\n' (read_file (.error "boom".toList) 2) = 0 := by
  obtain ⟨h1, h2, -, h4⟩ := claim_C7 "ab\ncd\nef".toList "boom".toList 2
  exact ⟨h1, h2, h4 (by decide)⟩

/-! ## C8: monotone scoring -/

/-- ASCII lowercasing never produces a path separator. -/
theorem toLower_slash {c : Char} (h : c.toLower = '/') : c = '/' := by
  unfold Char.toLower at h
  simp only [] at h
  by_cases hc : c.toNat ≥ 65 ∧ c.toNat ≤ 90
  · rw [if_pos hc] at h
    have hv : (c.toNat + 32).isValidChar := Or.inl (by omega)
    rw [Char.ofNat, dif_pos hv] at h
    have h2 := congrArg Char.toNat h
    simp only [Char.ofNatAux, Char.toNat, UInt32.ofNat', UInt32.toNat] at h2
    rw [BitVec.toNat_ofNatLt] at h2
    have h3 : ('/').val.toBitVec.toNat = 47 := rfl
    rw [h3] at h2
    have h4 : c.toNat = c.val.toBitVec.toNat := rfl
    rw [← h4] at h2
    omega
  · rw [if_neg hc] at h
    exact h

/-- Lowercasing distributes over concatenation. -/
theorem lowerL_append (s t : List Char) :
    lowerL (s ++ t) = lowerL s ++ lowerL t := List.map_append ..

/-- A separator-free string stays separator-free under lowercasing. -/
theorem slash_not_mem_lowerL {s : List Char} (hs : ('/' : Char) ∉ s) :
    ('/' : Char) ∉ lowerL s := by
  intro hmem
  obtain ⟨c, hc, he⟩ := List.mem_map.mp hmem
  rw [toLower_slash he] at hc
  exact hs hc

/-- A pattern ending in a separator that occurs in a list extended by
one separator-free character already occurs without that character. -/
theorem infix_of_infix_snoc {q B : List Char} {c : Char} (hc : c ≠ '/')
    (h : (q ++ ['/']) <:+: B ++ [c]) : (q ++ ['/']) <:+: B := by
  obtain ⟨t, u, htu⟩ := h
  rcases List.eq_nil_or_concat u with rfl | ⟨u2, d, rfl⟩
  · rw [List.append_nil] at htu
    have h2 : (t ++ q) ++ ['/'] = B ++ [c] := by
      rw [List.append_assoc]
      exact htu
    obtain ⟨-, h3⟩ := List.append_inj' h2 rfl
    have : '/' = c := by simpa using h3
    exact absurd this.symm hc
  · have h2 : (t ++ (q ++ ['/']) ++ u2) ++ [d] = B ++ [c] := by
      simpa [List.concat_eq_append, List.append_assoc] using htu
    obtain ⟨h3, -⟩ := List.append_inj' h2 rfl
    exact ⟨t, u2, h3⟩

/-- A pattern ending in a separator that occurs in `A ++ s` with `s`
separator-free already occurs in `A`. -/
theorem infix_of_infix_append {q A : List Char} :
    ∀ s : List Char, (∀ c ∈ s, c ≠ '/') → (q ++ ['/']) <:+: A ++ s →
      (q ++ ['/']) <:+: A := by
  intro s
  induction s using List.reverseRecOn with
  | nil =>
    intro _ h
    simpa using h
  | append_singleton s2 c ih =>
    intro hs h
    rw [← List.append_assoc] at h
    have h2 := infix_of_infix_snoc (hs c (by simp)) h
    exact ih (fun x hx => hs x (by simp [hx])) h2

/-- An occurrence survives extending the text on the right. -/
theorem infix_append_right {x A : List Char} (s : List Char)
    (h : x <:+: A) : x <:+: A ++ s :=
  h.trans (List.prefix_append A s).isInfix

/-- A conditional bonus is monotone under implication of its guard. -/
theorem ite_le_ite_of_imp {P Q : Prop} [Decidable P] [Decidable Q]
    (n : Nat) (h : P → Q) : (if P then n else 0) ≤ (if Q then n else 0) := by
  by_cases hp : P
  · rw [if_pos hp, if_pos (h hp)]
  · rw [if_neg hp]
    exact Nat.zero_le _

/-- C8.  Appending a security-sensitive keyword to a file's
name-without-extension (all other metadata unchanged) never lowers its
priority score.  The hypotheses say the stem and the extension hold no
path separator, which is true of every real file name. -/
theorem claim_C8 (f : PyFile) (w : List Char) (hw : w ∈ CRITICAL_KEYWORDS)
    (hstem : ('/' : Char) ∉ f.stem) (hext : ('/' : Char) ∉ f.ext) :
    get_priority f ≤ get_priority { f with stem := f.stem ++ w } := by
  have hlow : ∀ x ∈ CRITICAL_KEYWORDS, lowerL x = x := by decide
  have hdirs : ∀ d ∈ PRIORITY_DIRS, d = d.dropLast ++ ['/'] := by decide
  have hwlow : lowerL w = w := hlow w hw
  -- the new stem contains the keyword, so the security bonus fires
  have hcrit :
      CRITICAL_KEYWORDS.any (fun kw =>
        containsL (lowerL (f.stem ++ w)) kw
          || containsL (lowerL (PyFile.fullPath
              { f with stem := f.stem ++ w })) kw) = true := by
    refine List.any_eq_true.mpr ⟨w, hw, ?_⟩
    have : containsL (lowerL (f.stem ++ w)) w = true := by
      rw [containsL_iff, lowerL_append, hwlow]
      exact ⟨lowerL f.stem, [], by simp⟩
    simp [this]
  -- entry-point matches on the stem survive appending to it
  have himp : ∀ kw : List Char,
      containsL (lowerL f.stem) kw = true →
      containsL (lowerL (f.stem ++ w)) kw = true := by
    intro kw h
    rw [containsL_iff] at h ⊢
    rw [lowerL_append]
    exact infix_append_right _ h
  -- priority-directory matches on the path survive appending to the stem
  have hdir : ∀ d ∈ PRIORITY_DIRS,
      containsL (lowerL f.fullPath) d = true →
      containsL (lowerL (PyFile.fullPath { f with stem := f.stem ++ w }))
        d = true := by
    intro d hd h
    rw [containsL_iff] at h ⊢
    have hshape : d = d.dropLast ++ ['/'] := hdirs d hd
    have hfree : ∀ c ∈ lowerL f.stem ++ lowerL f.ext, c ≠ '/' := by
      intro c hc
      rcases List.mem_append.mp hc with hc | hc
      · exact fun he => slash_not_mem_lowerL hstem (he ▸ hc)
      · exact fun he => slash_not_mem_lowerL hext (he ▸ hc)
    have hold : lowerL f.fullPath =
        (lowerL f.parent ++ ['/']) ++ (lowerL f.stem ++ lowerL f.ext) := by
      simp [PyFile.fullPath, PyFile.name, lowerL, List.map_append]
    have hnew : lowerL (PyFile.fullPath { f with stem := f.stem ++ w }) =
        (lowerL f.parent ++ ['/'])
          ++ (lowerL f.stem ++ (lowerL w ++ lowerL f.ext)) := by
      simp [PyFile.fullPath, PyFile.name, lowerL, List.map_append]
    rw [hold] at h
    rw [hshape] at h ⊢
    have h2 := infix_of_infix_append _ hfree h
    rw [hnew]
    exact infix_append_right _ h2
  simp only [get_priority]
  refine Nat.add_le_add (Nat.add_le_add (Nat.add_le_add (Nat.add_le_add
    (Nat.add_le_add ?_ ?_) ?_) ?_) ?_) ?_
  · rw [if_pos hcrit]
    split <;> omega
  · refine ite_le_ite_of_imp 50 ?_
    intro h
    obtain ⟨kw, hkw, hc⟩ := List.any_eq_true.mp h
    exact List.any_eq_true.mpr ⟨kw, hkw, himp kw hc⟩
  · refine ite_le_ite_of_imp 25 ?_
    intro h
    obtain ⟨d, hd, hc⟩ := List.any_eq_true.mp h
    exact List.any_eq_true.mpr ⟨d, hd, hdir d hd hc⟩
  · exact Nat.le_refl _
  · exact Nat.le_refl _
  · exact Nat.le_refl _

/-- Witness for C8: appending `auth` to the stem of a concrete file
does not lower its score. -/
theorem claim_C8_witness :
    get_priority c8file ≤
      get_priority { c8file with stem := c8file.stem ++ "auth".toList } :=
  claim_C8 c8file "auth".toList (by decide) (by decide) (by decide)

/-! ## C9: the 30-file and 3000-character caps -/

/-- A `dict` assignment grows the dictionary by at most one entry. -/
theorem length_dictSetS (m : List (List Char × List Char))
    (k v : List Char) : (dictSetS m k v).length ≤ m.length + 1 := by
  induction m with
  | nil => simp [dictSetS]
  | cons p t ih =>
    rw [dictSetS]
    split
    · simp
    · simpa using Nat.succ_le_succ ih

/-- The `file_contents` dictionary holds at most one entry per file
read by the loop. -/
theorem analyzeLoop_length (fs : PyFile → FileOutcome)
    (files : List PyFile) :
    (analyzeLoop fs files).1.length ≤ files.length := by
  have key : ∀ (l : List PyFile)
      (acc : List (List Char × List Char) × Nat × List (List Char × Nat)),
      ((l.foldl
        (fun acc f =>
          let content := read_file (fs f) 500
          let lines := countCh '\n' content
          (dictSetS acc.1 f.fullPath content,
           acc.2.1 + lines,
           dictSetN acc.2.2 f.ext (dictGet acc.2.2 f.ext 0 + lines)))
        acc).1).length ≤ acc.1.length + l.length := by
    intro l
    induction l with
    | nil =>
      intro acc
      simp
    | cons f t ih =>
      intro acc
      rw [List.foldl_cons]
      refine le_trans (ih _) ?_
      have hd := length_dictSetS acc.1 f.fullPath (read_file (fs f) 500)
      simp only [List.length_cons]
      omega
  simpa [analyzeLoop] using key files ([], 0, [])

/-- C9.  `analyze` reads and reports on at most the first 30 sampled
files although the sampler's default budget is 50, and each file's
contribution to the prompt text is its header plus at most the first
3000 characters of the loaded content. -/
theorem claim_C9 (discovered : List PyFile) (fs : PyFile → FileOutcome)
    (url : List Char) (o : AiCallOutcome) :
    (∀ r : Report, analyze discovered fs url o = .report r →
        r.files_analyzed ≤ 30)
  ∧ (∀ path content : List Char,
        promptChunk path content =
          "\n\n=== FILE: ".toList ++ path ++ " ===\n".toList
            ++ content.take 3000
      ∧ (content.take 3000).length ≤ 3000
      ∧ content.take 3000 <+: content) := by
  constructor
  · intro r hr
    simp only [analyze] at hr
    by_cases hemp : (get_file_list discovered 50).isEmpty
    · rw [if_pos hemp] at hr
      exact absurd hr (by simp)
    · rw [if_neg hemp] at hr
      cases hr
      refine le_trans (analyzeLoop_length _ _) ?_
      refine le_trans (Nat.le_of_eq (List.length_take ..)) ?_
      exact Nat.min_le_left ..
  · intro path content
    refine ⟨rfl, ?_, List.take_prefix _ _⟩
    exact le_trans (Nat.le_of_eq (List.length_take ..)) (Nat.min_le_left ..)

/-- Witness for C9 at a concrete one-file repository whose analysis
returns a report. -/
theorem claim_C9_witness :
    Report.files_analyzed
      { repo := "u".toList, files_analyzed := 1, total_lines := 0,
        languages := [("Python".toList, 0)], score := 50,
        critical := [], warnings := [], improvements := [],
        summary := "Analysis error: ".toList } ≤ 30 :=
  (claim_C9 [c9file] (fun _ => Except.ok []) "u".toList (.raised [])).1
    _ (by decide)

/-! ## C10: degraded analysis is still a full report -/

/-- C10.  Whenever the external call fails — non-200 status, a body
that does not parse, or a raised exception — and the sampled file list
is non-empty, `analyze` still returns the full report shape with no
error field: score exactly 50, empty critical/warnings/improvements
lists, and one of the three short failure summaries. -/
theorem claim_C10 (discovered : List PyFile) (fs : PyFile → FileOutcome)
    (url : List Char) (o : AiCallOutcome)
    (hfail : (∃ st b, o = .response st b ∧ st ≠ 200)
           ∨ (∃ st m, o = .response st (.error m))
           ∨ (∃ m, o = .raised m))
    (hfiles : ¬(get_file_list discovered 50).isEmpty) :
    ∃ r : Report, analyze discovered fs url o = .report r
      ∧ r.score = 50 ∧ r.critical = [] ∧ r.warnings = []
      ∧ r.improvements = []
      ∧ (r.summary = "Analysis failed".toList
        ∨ r.summary = "Failed to parse analysis".toList
        ∨ ∃ m, r.summary = "Analysis error: ".toList ++ m) := by
  have hsum : (ai_analyze o).score = some 50
      ∧ (ai_analyze o).critical = none
      ∧ (ai_analyze o).warnings = none
      ∧ (ai_analyze o).improvements = none
      ∧ ((ai_analyze o).summary = some "Analysis failed".toList
        ∨ (ai_analyze o).summary = some "Failed to parse analysis".toList
        ∨ ∃ m, (ai_analyze o).summary =
            some ("Analysis error: ".toList ++ m)) := by
    rcases hfail with ⟨st, b, rfl, hst⟩ | ⟨st, m, rfl⟩ | ⟨m, rfl⟩
    · simp only [ai_analyze]
      rw [if_pos hst]
      exact ⟨rfl, rfl, rfl, rfl, Or.inl rfl⟩
    · by_cases hst : st ≠ 200
      · simp only [ai_analyze]
        rw [if_pos hst]
        exact ⟨rfl, rfl, rfl, rfl, Or.inl rfl⟩
      · simp only [ai_analyze]
        rw [if_neg hst]
        exact ⟨rfl, rfl, rfl, rfl, Or.inr (Or.inl rfl)⟩
    · exact ⟨rfl, rfl, rfl, rfl, Or.inr (Or.inr ⟨m, rfl⟩)⟩
  simp only [analyze]
  rw [if_neg hfiles]
  refine ⟨_, rfl, ?_, ?_, ?_, ?_, ?_⟩
  · show (ai_analyze o).score.getD 50 = 50
    rw [hsum.1]
    rfl
  · show (ai_analyze o).critical.getD [] = []
    rw [hsum.2.1]
    rfl
  · show (ai_analyze o).warnings.getD [] = []
    rw [hsum.2.2.1]
    rfl
  · show (ai_analyze o).improvements.getD [] = []
    rw [hsum.2.2.2.1]
    rfl
  · rcases hsum.2.2.2.2 with h | h | ⟨m, h⟩
    · refine Or.inl ?_
      show (ai_analyze o).summary.getD [] = _
      rw [h]
      rfl
    · refine Or.inr (Or.inl ?_)
      show (ai_analyze o).summary.getD [] = _
      rw [h]
      rfl
    · refine Or.inr (Or.inr ⟨m, ?_⟩)
      show (ai_analyze o).summary.getD [] = _
      rw [h]
      rfl

/-- Witness for C10: a raised exception on a concrete one-file
repository still yields a full report with score 50. -/
theorem claim_C10_witness :
    ∃ r : Report,
      analyze [c10file] (fun _ => Except.ok []) "u2".toList
          (.raised "x".toList) = .report r
      ∧ r.score = 50 ∧ r.critical = [] ∧ r.warnings = []
      ∧ r.improvements = []
      ∧ (r.summary = "Analysis failed".toList
        ∨ r.summary = "Failed to parse analysis".toList
        ∨ ∃ m, r.summary = "Analysis error: ".toList ++ m) :=
  claim_C10 [c10file] (fun _ => Except.ok []) "u2".toList
    (.raised "x".toList) (Or.inr (Or.inr ⟨"x".toList, rfl⟩)) (by decide)

end Sentinel
